import Mathlib

/-
  Shallow embedding of the data layer of the Cloudflare-Navihive repository:
  * src/src/utils/CacheManager.ts   (CacheManager, NavigationCacheManager)
  * src/src/utils/performance.ts    (SmartSearchEngine)
  JS strings are Lean Strings; JS numbers are Nat / Int, or the exact
  fraction type JsNum where the code forms non-integer scores;
  Date.now() is an explicit `now : Nat` parameter, and a JS Map is an
  insertion-ordered association list with unique keys (Map.set updates in
  place, Map.delete removes the keyed entry).
-/

/-! ### JS string primitives -/

/-- Model of JS `String.prototype.toLowerCase` (ASCII case folding). -/
def jsToLower (s : String) : String := String.mk (s.data.map Char.toLower)

/-- Model of JS `String.prototype.trim`: strip leading and trailing whitespace. -/
def jsTrim (s : String) : String :=
  String.mk (((s.data.dropWhile Char.isWhitespace).reverse.dropWhile Char.isWhitespace).reverse)

/-- `leadChars pat text` is true when `pat` is an initial segment of `text`. -/
def leadChars : List Char → List Char → Bool
  | [], _ => true
  | _ :: _, [] => false
  | p :: ps, c :: cs => p = c && leadChars ps cs

/-- `hasSubChars pat text` is true when `pat` occurs contiguously inside `text`. -/
def hasSubChars (pat : List Char) : List Char → Bool
  | [] => leadChars pat []
  | c :: cs => leadChars pat (c :: cs) || hasSubChars pat cs

/-- Model of JS `s.includes(pat)`. -/
def strIncludes (s pat : String) : Bool := hasSubChars pat.data s.data

/-- Model of JS `s.startsWith(pat)`. -/
def strStartsWith (s pat : String) : Bool := leadChars pat.data s.data

/-- Accumulator pass collecting the maximal non-whitespace runs of a char list. -/
def tokensAux : List Char → List Char → List String
  | [], cur => if cur.isEmpty then [] else [String.mk cur.reverse]
  | c :: cs, cur =>
    if c.isWhitespace then
      if cur.isEmpty then tokensAux cs [] else String.mk cur.reverse :: tokensAux cs []
    else tokensAux cs (c :: cur)

/-- Model of JS `s.split(/\s+/)`: maximal whitespace runs separate the tokens; a
leading separator (or the empty string) contributes a leading `""`, a trailing
separator contributes a trailing `""`. -/
def splitWs (s : String) : List String :=
  match s.data with
  | [] => [""]
  | c :: cs =>
    let toks := tokensAux (c :: cs) []
    let withLead := if c.isWhitespace then "" :: toks else toks
    match (c :: cs).getLast? with
    | some lastC => if lastC.isWhitespace then withLead ++ [""] else withLead
    | none => withLead

/-! ### CacheManager (src/src/utils/CacheManager.ts, lines 6-130) -/

/-- CacheEntry<T>: `{ data, timestamp, ttl }`. -/
structure CacheEntry (α : Type) where
  data : α
  timestamp : Nat
  ttl : Nat
deriving Repr, DecidableEq

/-- CacheManager state: the `memoryCache` Map (insertion-ordered, unique keys),
`maxSize` and `defaultTTL`. -/
structure CacheManager (α : Type) where
  memoryCache : List (String × CacheEntry α)
  maxSize : Nat
  defaultTTL : Nat
deriving Repr, DecidableEq

namespace CacheManager

/-- First entry stored under key `k` (JS `Map.prototype.get`). -/
def find? (k : String) : List (String × CacheEntry α) → Option (CacheEntry α)
  | [] => none
  | (k', e) :: rest => if k' = k then some e else find? k rest

/-- JS `Map.prototype.set`: update in place keeping insertion position, else append. -/
def mapSet (k : String) (e : CacheEntry α) :
    List (String × CacheEntry α) → List (String × CacheEntry α)
  | [] => [(k, e)]
  | (k', e') :: rest => if k' = k then (k, e) :: rest else (k', e') :: mapSet k e rest

/-- JS `Map.prototype.delete k`: remove the entry stored under `k` (keys are
unique, so removing every match is the same operation). -/
def eraseKey (k : String) : List (String × CacheEntry α) → List (String × CacheEntry α)
  | [] => []
  | (k', e) :: rest => if k' = k then eraseKey k rest else (k', e) :: eraseKey k rest

/-- The deletion loop of `cleanupExpired`: drop every entry with
`now - timestamp > ttl`, written as `timestamp + ttl < now`, which agrees with
the JS subtraction for all `now` (for `now < timestamp` the JS difference is
negative, hence not greater than the ttl). -/
def sweep (now : Nat) : List (String × CacheEntry α) → List (String × CacheEntry α)
  | [] => []
  | (k, e) :: rest =>
    if e.timestamp + e.ttl < now then sweep now rest else (k, e) :: sweep now rest

/-- `cleanupExpired()`. -/
def cleanupExpired (now : Nat) (c : CacheManager α) : CacheManager α :=
  { c with memoryCache := sweep now c.memoryCache }

/-- `set(key, data, ttl)`: cleanup, then if `size >= maxSize` delete the first
key of the Map — but only when that key is truthy (the source guards with
`if (firstKey)`, so an empty-string first key is not evicted) — then store. -/
def set (now : Nat) (k : String) (v : α) (ttl : Nat) (c : CacheManager α) :
    CacheManager α :=
  let c1 := cleanupExpired now c
  let c2 :=
    if c1.maxSize ≤ c1.memoryCache.length then
      match c1.memoryCache with
      | [] => c1
      | (k0, _) :: _ =>
        if k0 = "" then c1 else { c1 with memoryCache := eraseKey k0 c1.memoryCache }
    else c1
  { c2 with memoryCache := mapSet k (CacheEntry.mk v now ttl) c2.memoryCache }

/-- `get(key)`: absent if unknown; if expired, delete the entry and report
absent; otherwise return the data. Returns the possibly-mutated store. -/
def get (now : Nat) (k : String) (c : CacheManager α) :
    Option α × CacheManager α :=
  match find? k c.memoryCache with
  | none => (none, c)
  | some e =>
    if e.timestamp + e.ttl < now then
      (none, { c with memoryCache := eraseKey k c.memoryCache })
    else (some e.data, c)

/-- `delete(key)`. -/
def delete (k : String) (c : CacheManager α) : CacheManager α :=
  { c with memoryCache := eraseKey k c.memoryCache }

/-- `clear()`. -/
def clear (c : CacheManager α) : CacheManager α := { c with memoryCache := [] }

/-- `keys()`: runs `cleanupExpired` first, then lists the remaining keys;
returns the swept store alongside. -/
def keysOp (now : Nat) (c : CacheManager α) : List String × CacheManager α :=
  let c1 := cleanupExpired now c
  (c1.memoryCache.map Prod.fst, c1)

end CacheManager

/-! ### Sequences of store operations (for the capacity invariant) -/

/-- One mutating operation on a `CacheManager`. -/
inductive CacheOp (α : Type) where
  | setOp (now : Nat) (k : String) (v : α) (ttl : Nat)
  | delOp (k : String)
  | clearOp
deriving Repr

/-- Apply one operation. -/
def applyOp (c : CacheManager α) : CacheOp α → CacheManager α
  | .setOp now k v ttl => CacheManager.set now k v ttl c
  | .delOp k => CacheManager.delete k c
  | .clearOp => CacheManager.clear c

/-- Apply a sequence of operations in order. -/
def applyOps (c : CacheManager α) (ops : List (CacheOp α)) : CacheManager α :=
  ops.foldl applyOp c

/-- The key an operation writes, when it is a `set`. -/
def opSetKey : CacheOp α → Option String
  | .setOp _ k _ _ => some k
  | _ => none

/-! ### NavigationCacheManager (src/src/utils/CacheManager.ts, lines 133-295) -/

/-- NavigationCacheManager state: the wrapped `CacheManager` plus the hit/miss
counters. The constructor uses `new CacheManager(2000, 10 * 60 * 1000)`. -/
structure NavigationCacheManager (α : Type) where
  cache : CacheManager α
  hits : Nat
  misses : Nat
deriving Repr, DecidableEq

namespace NavigationCacheManager

/-- The fetch-and-fallback tail shared by the three read-through methods:
`await fetchFunction()` either succeeded (`Except.ok`) or threw
(`Except.error`); on failure the cache is consulted once more and the error is
rethrown only when that lookup also misses. `tFetch` is the clock when the
fetch settles. -/
def fetchPhase (key : String) (tFetch : Nat) (fetchResult : Except String α)
    (n : NavigationCacheManager α) : Except String α × NavigationCacheManager α :=
  match fetchResult with
  | .ok d =>
    (.ok d, { n with cache := CacheManager.set tFetch key d n.cache.defaultTTL n.cache })
  | .error err =>
    match CacheManager.get tFetch key n.cache with
    | (some v, c1) => (.ok v, { n with cache := c1 })
    | (none, c1) => (.error err, { n with cache := c1 })

/-- Common body of `getGroupsWithSites` / `getSites` / `getConfigs`: unless
`forceRefresh`, serve a cache hit; on miss (or forced refresh) count a miss and
run the fetch phase. `tGet` is the clock at the initial cache read, `tFetch`
the clock when the awaited fetch settles. -/
def getWithCache (key : String) (tGet tFetch : Nat) (fetchResult : Except String α)
    (forceRefresh : Bool) (n : NavigationCacheManager α) :
    Except String α × NavigationCacheManager α :=
  if forceRefresh then
    fetchPhase key tFetch fetchResult { n with misses := n.misses + 1 }
  else
    match CacheManager.get tGet key n.cache with
    | (some v, c1) => (.ok v, { n with cache := c1, hits := n.hits + 1 })
    | (none, c1) =>
      fetchPhase key tFetch fetchResult { n with cache := c1, misses := n.misses + 1 }

/-- `getGroupsWithSites`: cache key `'groupsWithSites'`. -/
def getGroupsWithSites (tGet tFetch : Nat) (fetchResult : Except String α)
    (forceRefresh : Bool) (n : NavigationCacheManager α) :
    Except String α × NavigationCacheManager α :=
  getWithCache "groupsWithSites" tGet tFetch fetchResult forceRefresh n

/-- Cache key of `getSites`: `` groupId ? `sites_group_${groupId}` : 'all_sites' ``
(a `groupId` of 0 is falsy in JS and selects `'all_sites'`). -/
def sitesKey (groupId : Option Int) : String :=
  match groupId with
  | some g => if g = 0 then "all_sites" else "sites_group_" ++ toString g
  | none => "all_sites"

/-- `getSites`. -/
def getSites (groupId : Option Int) (tGet tFetch : Nat) (fetchResult : Except String α)
    (forceRefresh : Bool) (n : NavigationCacheManager α) :
    Except String α × NavigationCacheManager α :=
  getWithCache (sitesKey groupId) tGet tFetch fetchResult forceRefresh n

/-- `getConfigs`: cache key `'configs'`. -/
def getConfigs (tGet tFetch : Nat) (fetchResult : Except String α)
    (forceRefresh : Bool) (n : NavigationCacheManager α) :
    Except String α × NavigationCacheManager α :=
  getWithCache "configs" tGet tFetch fetchResult forceRefresh n

/-- The argument of `invalidate`. -/
inductive InvalidateType where
  | groups | sites | configs | all
deriving Repr, DecidableEq

/-- The substring filter `invalidate` applies to each key (case-sensitive
`key.includes(...)`); `all` never reaches the filter. -/
def invalidateKeyMatches (ty : InvalidateType) (k : String) : Bool :=
  match ty with
  | .groups => strIncludes k "group"
  | .sites => strIncludes k "site"
  | .configs => strIncludes k "config"
  | .all => false

/-- `invalidate(type)`: `'all'` clears the store; otherwise enumerate
`cache.keys()` (which first performs the lazy-expiry sweep), keep the keys
containing the type's substring, and delete each of them. -/
def invalidate (ty : InvalidateType) (now : Nat) (n : NavigationCacheManager α) :
    NavigationCacheManager α :=
  match ty with
  | .all => { n with cache := CacheManager.clear n.cache }
  | _ =>
    let ks := CacheManager.keysOp now n.cache
    let keysToDelete := ks.1.filter (invalidateKeyMatches ty)
    { n with cache := keysToDelete.foldl (fun c k => CacheManager.delete k c) ks.2 }

end NavigationCacheManager

/-! ### SmartSearchEngine data model (src/src/utils/performance.ts) -/

namespace Navi

/-- Site record (src/API/http.ts shape, as used by performance.ts): `id` and
`group_id` are numbers, `url`/`description`/`notes`/`created_at` optional.
`created_at` is abstracted to the numeric value of `new Date(...).getTime()`;
an invalid or missing date (which yields NaN) is `none`. -/
structure Site where
  id : Int
  group_id : Int
  name : String
  url : Option String := none
  description : Option String := none
  notes : Option String := none
  created_at : Option Int := none
deriving Repr, DecidableEq

/-- Group record: `id` and `name` are all the search engine reads. -/
structure Group where
  id : Int
  name : String
deriving Repr, DecidableEq

/-- The `type` discriminator of a search result. -/
inductive RType where
  | site | group
deriving Repr, DecidableEq

/-- SearchResultItem (src/utils/search.ts shape as constructed in
performance.ts): the optional `semanticScore` is set only by the semantic
pass. -/
structure SearchResultItem where
  type : RType
  id : Int
  groupId : Option Int := none
  name : String
  url : Option String := none
  description : Option String := none
  notes : Option String := none
  matchedFields : List String
  semanticScore : Option Nat := none
deriving Repr, DecidableEq

/-- SearchHistoryItem. -/
structure SearchHistoryItem where
  query : String
  timestamp : Nat
  resultsCount : Nat
  selectedId : Option Int := none
deriving Repr, DecidableEq

/-- SmartSearchEngine mutable state: the history list (newest first) and the
`maxHistoryItems` bound (100 in the source). -/
structure SmartSearchEngine where
  searchHistory : List SearchHistoryItem
  maxHistoryItems : Nat := 100
deriving Repr, DecidableEq

/-- A site or a group, as fed to the shared scoring helpers (the source
discriminates with `'group_id' in item`). -/
inductive SG where
  | ofSite (s : Site)
  | ofGroup (g : Group)
deriving Repr, DecidableEq

/-! ### SmartSearchEngine helpers (matching and scoring) -/

/-- Exact rational number as an unnormalized fraction, standing in for the JS
floating-point score values. Every literal of the source (`100`, `50`, `20`,
`5`, `1.5`, `0.8`, `0.7`) and every quotient the code forms is an exact small
rational, so fraction comparison represents the JS comparisons faithfully (no
normalization is performed; denominators stay positive throughout the embedded
code, see `JsNum.div`). -/
structure JsNum where
  num : Int
  den : Nat
deriving Repr, DecidableEq

instance : OfNat JsNum n := ⟨⟨n, 1⟩⟩
instance : NatCast JsNum := ⟨fun n => ⟨n, 1⟩⟩
instance : Add JsNum := ⟨fun a b => ⟨a.num * b.den + b.num * a.den, a.den * b.den⟩⟩
instance : Mul JsNum := ⟨fun a b => ⟨a.num * b.num, a.den * b.den⟩⟩

/-- Division of fractions; the divisor is positive at every use site in the
embedded code (literal constants and a positive max of lengths). -/
def JsNum.div (a b : JsNum) : JsNum := ⟨a.num * b.den, a.den * b.num.toNat⟩

instance : Div JsNum := ⟨JsNum.div⟩

/-- `a/b < c/d` compared exactly via cross-multiplication (positive denominators). -/
def JsNum.lt (a b : JsNum) : Prop := a.num * b.den < b.num * a.den

instance : LT JsNum := ⟨JsNum.lt⟩

instance (a b : JsNum) : Decidable (a < b) :=
  inferInstanceAs (Decidable (a.num * b.den < b.num * a.den))

/-- JS `x || ''` on an optional string field (both `undefined` and `''` give `''`). -/
def optOrEmpty : Option String → String
  | some s => s
  | none => ""

/-- JS template interpolation of an optional field: `undefined` prints as the
literal token `"undefined"`. -/
def optInterp : Option String → String
  | some s => s
  | none => "undefined"

/-- `getItemTextForScoring`: for a site,
`` `${name} ${url || ''} ${description || ''} ${notes || ''}`.toLowerCase() ``;
for a group, the lower-cased name. -/
def getItemTextForScoring : SG → String
  | .ofSite s =>
    jsToLower (s.name ++ " " ++ optOrEmpty s.url ++ " " ++ optOrEmpty s.description
      ++ " " ++ optOrEmpty s.notes)
  | .ofGroup g => jsToLower g.name

/-- `matchesQuery`: substring match of the query in the scoring text. -/
def matchesQuery (item : SG) (query : String) : Bool :=
  strIncludes (getItemTextForScoring item) query

/-- Truthiness-guarded field match used by `getMatchingFields`:
`item.field && item.field.toLowerCase().includes(query)`. -/
def optFieldMatches (o : Option String) (query : String) : Bool :=
  match o with
  | some v => !(v == "") && strIncludes (jsToLower v) query
  | none => false

/-- `getMatchingFields`. -/
def getMatchingFields (item : SG) (query : String) : List String :=
  match item with
  | .ofSite s =>
    (if strIncludes (jsToLower s.name) query then ["name"] else []) ++
    (if optFieldMatches s.url query then ["url"] else []) ++
    (if optFieldMatches s.description query then ["description"] else []) ++
    (if optFieldMatches s.notes query then ["notes"] else [])
  | .ofGroup g => if strIncludes (jsToLower g.name) query then ["name"] else []

/-- Two-pointer core of `fuzzyMatch`: does the pattern occur in the text as an
ordered (not necessarily contiguous) character subsequence? -/
def subseqFrom : List Char → List Char → Bool
  | _, [] => true
  | [], _ :: _ => false
  | t :: ts, p :: ps => if t = p then subseqFrom ts ps else subseqFrom ts (p :: ps)

/-- `fuzzyMatch(text, pattern)`. -/
def fuzzyMatch (text pat : String) : Bool :=
  if pat.length = 0 then true
  else if text.length < pat.length then false
  else subseqFrom text.data pat.data

/-- Per-term contribution inside `calculateRelevanceScore`: 100 exact, 50
starts-with, 20 contains, 5 fuzzy subsequence. -/
def termScore (lowerText term : String) : JsNum :=
  if lowerText == term then 100
  else if strStartsWith lowerText term then 50
  else if strIncludes lowerText term then 20
  else if fuzzyMatch lowerText term then 5
  else 0

/-- `calculateRelevanceScore`: sum the per-term scores, then multiply by 1.5
(exactly 3/2) when every term occurs in the item text. -/
def calculateRelevanceScore (item : SG) (queryTerms : List String) : JsNum :=
  let score := queryTerms.foldl
    (fun acc term => acc + termScore (jsToLower (getItemTextForScoring item)) term) 0
  let matchedTerms := (queryTerms.filter
    (fun term => strIncludes (jsToLower (getItemTextForScoring item)) term)).length
  if matchedTerms = queryTerms.length then score * (3 / 2) else score

/-- Positionally-equal character count over the common length
(the `for` loop of `calculateSimilarity`). -/
def commonPrefixChars : List Char → List Char → Nat
  | a :: as, b :: bs => (if a = b then 1 else 0) + commonPrefixChars as bs
  | _, _ => 0

/-- `calculateSimilarity`: 1 if equal, 0.8 if one side contains the other, else
positionally-equal characters divided by the max length. The JS float literals
are represented exactly as rationals. -/
def calculateSimilarity (str1 str2 : String) : JsNum :=
  let s1 := jsToLower str1
  let s2 := jsToLower str2
  if s1 == s2 then 1
  else if strIncludes s1 s2 || strIncludes s2 s1 then 8 / 10
  else (commonPrefixChars s1.data s2.data : JsNum) / ((max s1.length s2.length : Nat) : JsNum)

/-- `query.toLowerCase().split(/\s+/).filter(term => term.length > 0)`. -/
def queryTermsOf (query : String) : List String :=
  (splitWs (jsToLower query)).filter (fun t => 0 < t.length)

/-- Per-record accumulation of the semantic pass: `+10` when the combined text
contains the term, `+5` for every whitespace token whose similarity with the
term exceeds 0.7. -/
def semanticScoreOf (text : String) (queryTerms : List String) : Nat :=
  queryTerms.foldl
    (fun acc term =>
      let acc1 := if strIncludes text term then acc + 10 else acc
      (splitWs text).foldl
        (fun a word => if (7 : JsNum) / 10 < calculateSimilarity term word then a + 5 else a)
        acc1)
    0

/-- The combined site text of the semantic pass:
`` `${site.name} ${site.description} ${site.notes} ${site.url}`.toLowerCase() ``
— note the bare interpolation, which renders absent fields as `"undefined"`. -/
def semanticSiteText (s : Site) : String :=
  jsToLower (s.name ++ " " ++ optInterp s.description ++ " " ++ optInterp s.notes
    ++ " " ++ optInterp s.url)

/-- Construction of a site `SearchResultItem` (shared by the passes). -/
def siteToResult (s : Site) (fields : List String) (semScore : Option Nat) :
    SearchResultItem :=
  { type := .site, id := s.id, groupId := some s.group_id, name := s.name,
    url := s.url, description := s.description, notes := s.notes,
    matchedFields := fields, semanticScore := semScore }

/-- Construction of a group `SearchResultItem`. -/
def groupToResult (g : Group) (fields : List String) (semScore : Option Nat) :
    SearchResultItem :=
  { type := .group, id := g.id, name := g.name,
    matchedFields := fields, semanticScore := semScore }

/-! ### SmartSearchEngine passes (performBasicSearch / performSmartSearch /
performSemanticSearch), merging, sorting, history -/

/-- `performBasicSearch`: the sites loop pushes matching sites (in input
order), then the groups loop pushes matching groups. Basic results never carry
a `semanticScore`. -/
def performBasicSearch (query : String) (groups : List Group) (sites : List Site) :
    List SearchResultItem :=
  (sites.filterMap fun s =>
    if matchesQuery (.ofSite s) query then
      some (siteToResult s (getMatchingFields (.ofSite s) query) none)
    else none)
  ++ (groups.filterMap fun g =>
    if matchesQuery (.ofGroup g) query then
      some (groupToResult g (getMatchingFields (.ofGroup g) query) none)
    else none)

/-- Stable insertion for the scored-items sort of the smart pass: JS
`sort((a, b) => b.score - a.score)` places `x` strictly before `y` exactly when
`x.score > y.score`; ties keep the original order (ES2019 sorts are stable). -/
def insertByScore (x : SG × JsNum) : List (SG × JsNum) → List (SG × JsNum)
  | [] => [x]
  | y :: ys => if y.2 < x.2 then x :: y :: ys else y :: insertByScore x ys

/-- Stable sort by descending score (insertion sort, inserting after ties). -/
def sortScored (l : List (SG × JsNum)) : List (SG × JsNum) :=
  l.foldl (fun acc x => insertByScore x acc) []

/-- `performSmartSearch`: score every site then every group, keep positive
scores, sort descending, cap at 20, rebuild result items. Smart results never
carry a `semanticScore`. -/
def performSmartSearch (query : String) (groups : List Group) (sites : List Site) :
    List SearchResultItem :=
  let queryTerms := queryTermsOf query
  let scored :=
    sites.map (fun s => (SG.ofSite s, calculateRelevanceScore (.ofSite s) queryTerms))
    ++ groups.map (fun g => (SG.ofGroup g, calculateRelevanceScore (.ofGroup g) queryTerms))
  let highScore := (sortScored (scored.filter (fun x => 0 < x.2))).take 20
  highScore.map (fun x =>
    match x.1 with
    | .ofSite s => siteToResult s (getMatchingFields (.ofSite s) query) none
    | .ofGroup g => groupToResult g (getMatchingFields (.ofGroup g) query) none)

/-- `performSemanticSearch`: sites first (combined text with the raw template
interpolation), then groups (name only); a record is kept when its accumulated
`semanticScore` is positive. -/
def performSemanticSearch (query : String) (groups : List Group) (sites : List Site) :
    List SearchResultItem :=
  let queryTerms := queryTermsOf query
  (sites.filterMap fun s =>
    let score := semanticScoreOf (semanticSiteText s) queryTerms
    if 0 < score then some (siteToResult s ["semantic"] (some score)) else none)
  ++ (groups.filterMap fun g =>
    let score := semanticScoreOf (jsToLower g.name) queryTerms
    if 0 < score then some (groupToResult g ["semantic"] (some score)) else none)

/-- One step of the dedup loop of `mergeAndDeduplicate`: the `id` set decides
whether an item is appended; kinds are not consulted. -/
def dedupStep (acc : List Int × List SearchResultItem) (item : SearchResultItem) :
    List Int × List SearchResultItem :=
  if item.id ∈ acc.1 then acc else (item.id :: acc.1, acc.2 ++ [item])

/-- The comparator closing `mergeAndDeduplicate`, as a strict before relation:
site-kind before group-kind, then more matched fields first; ties stable. -/
def cmpMergeLt (a b : SearchResultItem) : Bool :=
  if a.type ≠ b.type then a.type = RType.site
  else b.matchedFields.length < a.matchedFields.length

/-- Stable insertion for `cmpMergeLt`. -/
def insertMerge (x : SearchResultItem) : List SearchResultItem → List SearchResultItem
  | [] => [x]
  | y :: ys => if cmpMergeLt x y then x :: y :: ys else y :: insertMerge x ys

/-- `mergeAndDeduplicate(basic, smart, semantic)`: three sequential loops over
a shared `Set<number>` of seen ids, then the stable sort by `cmpMergeLt`. -/
def mergeAndDeduplicate (basic smart semantic : List SearchResultItem) :
    List SearchResultItem :=
  let a1 := basic.foldl dedupStep ([], [])
  let a2 := smart.foldl dedupStep a1
  let a3 := semantic.foldl dedupStep a2
  a3.2.foldl (fun acc x => insertMerge x acc) []

/-- The comparator of `sortByRelevance`, as a strict before relation:
descending `semanticScore` (absent read as 0 via `|| 0`), then site before
group, then more matched fields first. -/
def cmpRelevanceLt (a b : SearchResultItem) : Bool :=
  let aS := a.semanticScore.getD 0
  let bS := b.semanticScore.getD 0
  if aS ≠ bS then bS < aS
  else if a.type ≠ b.type then a.type = RType.site
  else b.matchedFields.length < a.matchedFields.length

/-- Stable insertion for `cmpRelevanceLt`. -/
def insertRelevance (x : SearchResultItem) :
    List SearchResultItem → List SearchResultItem
  | [] => [x]
  | y :: ys => if cmpRelevanceLt x y then x :: y :: ys else y :: insertRelevance x ys

/-- `sortByRelevance(results, query)` (the query parameter is unused in the
comparator). -/
def sortByRelevance (results : List SearchResultItem) (_query : String) :
    List SearchResultItem :=
  results.foldl (fun acc x => insertRelevance x acc) []

/-- `recordSearch(query, resultsCount)`: unshift the new entry, then truncate
to `maxHistoryItems` when the bound is exceeded (the persistence write is
external I/O and optional, so it does not appear in the state). -/
def recordSearch (query : String) (resultsCount : Nat) (now : Nat)
    (e : SmartSearchEngine) : SmartSearchEngine :=
  let h := SearchHistoryItem.mk query now resultsCount none :: e.searchHistory
  { e with searchHistory := if e.maxHistoryItems < h.length then h.take e.maxHistoryItems else h }

/-- Comparator of `getPopularRecommendations`, as a strict before relation:
descending `new Date(created_at || '').getTime()`. A missing or invalid date
yields NaN, on which the comparator returns NaN and the sort leaves the pair
in order, modelled as "not before". -/
def cmpCreatedLt (a b : Site) : Bool :=
  match a.created_at, b.created_at with
  | some x, some y => y < x
  | _, _ => false

/-- Stable insertion for `cmpCreatedLt`. -/
def insertCreated (x : Site) : List Site → List Site
  | [] => [x]
  | y :: ys => if cmpCreatedLt x y then x :: y :: ys else y :: insertCreated x ys

/-- `getPopularRecommendations`: the ten most recently created sites, each
tagged `matchedFields = ['name']` (the groups argument is not read). -/
def getPopularRecommendations (_groups : List Group) (sites : List Site) :
    List SearchResultItem :=
  let recentSites := (sites.foldl (fun acc x => insertCreated x acc) []).take 10
  recentSites.map (fun s => siteToResult s ["name"] none)

/-- `search(query, groups, sites)`: empty/whitespace query takes the popular
path (no history entry); otherwise run the three passes on the trimmed
lower-cased query, merge, record history, and sort by relevance. Returns the
result list and the updated engine state. -/
def search (query : String) (groups : List Group) (sites : List Site)
    (now : Nat) (e : SmartSearchEngine) :
    List SearchResultItem × SmartSearchEngine :=
  if jsTrim query = "" then (getPopularRecommendations groups sites, e)
  else
    let trimmedQuery := jsToLower (jsTrim query)
    let basicResults := performBasicSearch trimmedQuery groups sites
    let smartResults := performSmartSearch trimmedQuery groups sites
    let semanticResults := performSemanticSearch trimmedQuery groups sites
    let allResults := mergeAndDeduplicate basicResults smartResults semanticResults
    let e1 := recordSearch query allResults.length now e
    (sortByRelevance allResults trimmedQuery, e1)

/-- `search` with possibly-null collections. A null `sites` always throws
(the popular path spreads it, the basic pass iterates it); a null `groups` is
harmless only on the empty-query popular path, which never touches it (the
popular helper ignores its groups argument), and throws once the basic pass
iterates it. -/
def searchNullable (query : String) (groups? : Option (List Group))
    (sites? : Option (List Site)) (now : Nat) (e : SmartSearchEngine) :
    Except String (List SearchResultItem × SmartSearchEngine) :=
  match groups?, sites? with
  | some gs, some ss => .ok (search query gs ss now e)
  | none, some ss =>
    if jsTrim query = "" then .ok (getPopularRecommendations [] ss, e)
    else .error "TypeError: null collection is not iterable"
  | _, none =>
    .error (if jsTrim query = "" then "TypeError: sites is not iterable"
      else "TypeError: null collection is not iterable")

end Navi

/-! ### Concrete fixtures used by the claim theorems -/

/-- A fresh engine with the source's default history bound. -/
def engine100 : Navi.SmartSearchEngine := ⟨[], 100⟩

/-- An engine with history capacity 2 (Scenario C of the spec). -/
def engine2 : Navi.SmartSearchEngine := ⟨[], 2⟩

/-- A coordinator whose store holds an entry for `groupsWithSites` stored at
time 0 with a 10ms TTL (expired at time 100). -/
def navExpired : NavigationCacheManager Nat :=
  ⟨⟨[("groupsWithSites", ⟨42, 0, 10⟩)], 2000, 600000⟩, 0, 0⟩

/-- A coordinator caching the four domain keys, all fresh at time 10. -/
def navKeys : NavigationCacheManager Nat :=
  ⟨⟨[("groupsWithSites", ⟨1, 0, 100⟩), ("sites_group_5", ⟨2, 0, 100⟩),
     ("all_sites", ⟨3, 0, 100⟩), ("configs", ⟨4, 0, 100⟩)], 2000, 600000⟩, 0, 0⟩

/-- Site named exactly "abcdef" (id 1). -/
def siteAbcdef : Navi.Site := { id := 1, group_id := 1, name := "abcdef" }

/-- Site named exactly "abc" (id 2). -/
def siteAbc : Navi.Site := { id := 2, group_id := 1, name := "abc" }

/-- A group and a site that share the numeric id 1 and the name "abc". -/
def groupId1 : Navi.Group := { id := 1, name := "abc" }

/-- Site with id 1, name "abc" and every optional field absent. -/
def siteId1 : Navi.Site := { id := 1, group_id := 1, name := "abc" }

/-! ### Association-list lemmas for the cache store -/

namespace CacheManager

theorem find?_mapSet_self (k : String) (e : CacheEntry α) :
    ∀ l, find? k (mapSet k e l) = some e := by
  intro l
  induction l with
  | nil => simp [mapSet, find?]
  | cons p rest ih =>
    obtain ⟨k', e'⟩ := p
    by_cases h : k' = k
    · subst h; simp [mapSet, find?]
    · simp [mapSet, find?, h, ih]

theorem find?_eraseKey_self (k : String) :
    ∀ l : List (String × CacheEntry α), find? k (eraseKey k l) = none := by
  intro l
  induction l with
  | nil => rfl
  | cons p rest ih =>
    obtain ⟨k', e'⟩ := p
    by_cases h : k' = k
    · simpa [eraseKey, h] using ih
    · simpa [eraseKey, h, find?] using ih

theorem find?_eraseKey_ne (k k0 : String) (hne : k ≠ k0) :
    ∀ l : List (String × CacheEntry α), find? k (eraseKey k0 l) = find? k l := by
  intro l
  induction l with
  | nil => rfl
  | cons p rest ih =>
    obtain ⟨k', e'⟩ := p
    by_cases h : k' = k0
    · have h2 : ¬ k' = k := fun hk => hne (hk ▸ h)
      rw [show eraseKey k0 ((k', e') :: rest) = eraseKey k0 rest from by
        simp [eraseKey, h]]
      rw [ih]
      simp [find?, h2]
    · by_cases h2 : k' = k
      · simp [eraseKey, h, h2, find?, hne]
      · simpa [eraseKey, h, h2, find?] using ih

theorem find?_eq_none_iff (k : String) (l : List (String × CacheEntry α)) :
    find? k l = none ↔ ∀ p ∈ l, p.1 ≠ k := by
  induction l with
  | nil => simp [find?]
  | cons p rest ih =>
    obtain ⟨k', e'⟩ := p
    by_cases h : k' = k
    · subst h; simp [find?]
    · simp [find?, h, ih]

theorem mem_sweep (now : Nat) {p : String × CacheEntry α} :
    ∀ {l : List (String × CacheEntry α)}, p ∈ sweep now l → p ∈ l := by
  intro l
  induction l with
  | nil => simp [sweep]
  | cons q rest ih =>
    obtain ⟨k', e'⟩ := q
    by_cases h : e'.timestamp + e'.ttl < now
    · intro hp
      exact List.mem_cons_of_mem _ (ih (by simpa [sweep, h] using hp))
    · intro hp
      rcases (by simpa [sweep, h] using hp : p = (k', e') ∨ p ∈ sweep now rest) with h1 | h1
      · exact h1 ▸ List.mem_cons_self _ _
      · exact List.mem_cons_of_mem _ (ih h1)

theorem length_sweep_le (now : Nat) :
    ∀ l : List (String × CacheEntry α), (sweep now l).length ≤ l.length := by
  intro l
  induction l with
  | nil => simp [sweep]
  | cons q rest ih =>
    obtain ⟨k', e'⟩ := q
    by_cases h : e'.timestamp + e'.ttl < now
    · simp only [sweep, h, if_true, List.length_cons]
      omega
    · simp only [sweep, h, if_false, List.length_cons]
      omega

theorem find?_sweep (k : String) (now : Nat) :
    ∀ l : List (String × CacheEntry α), (l.map Prod.fst).Nodup →
      find? k (sweep now l) =
        (find? k l).bind
          (fun e => if e.timestamp + e.ttl < now then none else some e) := by
  intro l
  induction l with
  | nil => intro _; rfl
  | cons p rest ih =>
    intro hnd
    obtain ⟨k', e'⟩ := p
    rw [List.map_cons, List.nodup_cons] at hnd
    obtain ⟨hk', hrest⟩ := hnd
    by_cases h : k' = k
    · subst h
      have hnone : find? k' (sweep now rest) = none := by
        rw [find?_eq_none_iff]
        intro p hp hpk
        have hmem : p ∈ rest := mem_sweep now hp
        have hmap : p.1 ∈ rest.map Prod.fst := List.mem_map_of_mem Prod.fst hmem
        exact hk' (hpk ▸ hmap)
      by_cases hq : e'.timestamp + e'.ttl < now
      · simp [sweep, hq, find?, hnone]
      · simp [sweep, hq, find?]
    · by_cases hq : e'.timestamp + e'.ttl < now
      · simp [sweep, hq, find?, h, ih hrest]
      · simp [sweep, hq, find?, h, ih hrest]

end CacheManager

namespace CacheManager

theorem mem_eraseKey (k0 : String) {p : String × CacheEntry α} :
    ∀ {l : List (String × CacheEntry α)}, p ∈ eraseKey k0 l → p ∈ l := by
  intro l
  induction l with
  | nil => simp [eraseKey]
  | cons q rest ih =>
    obtain ⟨k', e'⟩ := q
    by_cases h : k' = k0
    · intro hp
      exact List.mem_cons_of_mem _ (ih (by simpa [eraseKey, h] using hp))
    · intro hp
      rcases (by simpa [eraseKey, h] using hp : p = (k', e') ∨ p ∈ eraseKey k0 rest) with h1 | h1
      · exact h1 ▸ List.mem_cons_self _ _
      · exact List.mem_cons_of_mem _ (ih h1)

theorem length_eraseKey_le (k0 : String) :
    ∀ l : List (String × CacheEntry α), (eraseKey k0 l).length ≤ l.length := by
  intro l
  induction l with
  | nil => simp [eraseKey]
  | cons q rest ih =>
    obtain ⟨k', e'⟩ := q
    by_cases h : k' = k0
    · simp only [eraseKey, h, if_true, List.length_cons]
      omega
    · simp only [eraseKey, h, if_false, List.length_cons]
      omega

theorem mem_mapSet (k : String) (e : CacheEntry α) {p : String × CacheEntry α} :
    ∀ {l : List (String × CacheEntry α)}, p ∈ mapSet k e l → p = (k, e) ∨ p ∈ l := by
  intro l
  induction l with
  | nil => simp [mapSet]
  | cons q rest ih =>
    obtain ⟨k', e'⟩ := q
    by_cases h : k' = k
    · intro hp
      rcases (by simpa [mapSet, h] using hp : p = (k, e) ∨ p ∈ rest) with h1 | h1
      · exact Or.inl h1
      · exact Or.inr (List.mem_cons_of_mem _ h1)
    · intro hp
      rcases (by simpa [mapSet, h] using hp : p = (k', e') ∨ p ∈ mapSet k e rest) with h1 | h1
      · exact Or.inr (h1 ▸ List.mem_cons_self _ _)
      · rcases ih h1 with h2 | h2
        · exact Or.inl h2
        · exact Or.inr (List.mem_cons_of_mem _ h2)

theorem length_mapSet_le (k : String) (e : CacheEntry α) :
    ∀ l : List (String × CacheEntry α), (mapSet k e l).length ≤ l.length + 1 := by
  intro l
  induction l with
  | nil => simp [mapSet]
  | cons q rest ih =>
    obtain ⟨k', e'⟩ := q
    by_cases h : k' = k
    · simp [mapSet, h]
    · simp only [mapSet, h, if_false, List.length_cons]
      omega

theorem find?_set_self (now : Nat) (k : String) (v : α) (ttl : Nat)
    (c : CacheManager α) :
    find? k ((set now k v ttl c).memoryCache) = some ⟨v, now, ttl⟩ :=
  find?_mapSet_self k _ _

theorem set_maxSize (now : Nat) (k : String) (v : α) (ttl : Nat)
    (c : CacheManager α) : (set now k v ttl c).maxSize = c.maxSize := by
  unfold set cleanupExpired
  dsimp only
  split
  · split
    · rfl
    · split <;> rfl
  · rfl

/-- The capacity-and-nonempty-keys invariant is preserved by `set`, provided
the capacity is at least 1 and only non-empty keys are ever written (an empty
first key disables the eviction guard `if (firstKey)`). -/
theorem set_inv (now : Nat) (k : String) (v : α) (ttl : Nat) (c : CacheManager α)
    (hcap : 1 ≤ c.maxSize) (hk : k ≠ "")
    (hkeys : ∀ p ∈ c.memoryCache, p.1 ≠ "")
    (hlen : c.memoryCache.length ≤ c.maxSize) :
    (∀ p ∈ (set now k v ttl c).memoryCache, p.1 ≠ "") ∧
      (set now k v ttl c).memoryCache.length ≤ c.maxSize := by
  have hkeys1 : ∀ p ∈ sweep now c.memoryCache, p.1 ≠ "" :=
    fun p hp => hkeys p (mem_sweep now hp)
  have hlen1 : (sweep now c.memoryCache).length ≤ c.maxSize :=
    le_trans (length_sweep_le now c.memoryCache) hlen
  by_cases hif : c.maxSize ≤ (sweep now c.memoryCache).length
  · rcases hcase : sweep now c.memoryCache with _ | ⟨⟨k0, e0⟩, rest⟩
    · rw [hcase] at hif
      simp only [List.length_nil, Nat.le_zero] at hif
      omega
    · have hk0 : k0 ≠ "" := hkeys1 (k0, e0) (hcase ▸ List.mem_cons_self _ _)
      have hshape :
          (set now k v ttl c).memoryCache =
            mapSet k ⟨v, now, ttl⟩ (eraseKey k0 ((k0, e0) :: rest)) := by
        unfold set cleanupExpired
        dsimp only
        rw [hcase, if_pos (hcase ▸ hif)]
        dsimp only
        rw [if_neg hk0]
      rw [hshape]
      have herase : eraseKey k0 ((k0, e0) :: rest) = eraseKey k0 rest := by
        simp [eraseKey]
      constructor
      · intro p hp
        rcases mem_mapSet k _ hp with h1 | h1
        · rw [h1]; exact hk
        · exact hkeys1 p (hcase ▸ mem_eraseKey k0 h1)
      · have h1 : (eraseKey k0 ((k0, e0) :: rest)).length ≤ rest.length := by
          rw [herase]
          exact length_eraseKey_le k0 rest
        have h2 := length_mapSet_le k (CacheEntry.mk v now ttl)
          (eraseKey k0 ((k0, e0) :: rest))
        have h3 : rest.length + 1 = (sweep now c.memoryCache).length := by
          rw [hcase]; simp
        omega
  · have hshape :
        (set now k v ttl c).memoryCache =
          mapSet k ⟨v, now, ttl⟩ (sweep now c.memoryCache) := by
      unfold set cleanupExpired
      dsimp only
      rw [if_neg hif]
    rw [hshape]
    constructor
    · intro p hp
      rcases mem_mapSet k _ hp with h1 | h1
      · rw [h1]; exact hk
      · exact hkeys1 p h1
    · have h2 := length_mapSet_le k (CacheEntry.mk v now ttl) (sweep now c.memoryCache)
      omega

end CacheManager

namespace CacheManager

/-- Every operation preserves the capacity bound, the non-empty-keys property
and the capacity field, under capacity at least 1 and non-empty set keys. -/
theorem applyOp_inv (c : CacheManager α) (op : CacheOp α)
    (hcap : 1 ≤ c.maxSize)
    (hop : ∀ k, opSetKey op = some k → k ≠ "")
    (hkeys : ∀ p ∈ c.memoryCache, p.1 ≠ "")
    (hlen : c.memoryCache.length ≤ c.maxSize) :
    (∀ p ∈ (applyOp c op).memoryCache, p.1 ≠ "") ∧
      (applyOp c op).memoryCache.length ≤ c.maxSize ∧
      (applyOp c op).maxSize = c.maxSize := by
  cases op with
  | setOp now k v ttl =>
    have hk : k ≠ "" := hop k rfl
    have h := set_inv now k v ttl c hcap hk hkeys hlen
    exact ⟨h.1, h.2, set_maxSize now k v ttl c⟩
  | delOp k =>
    refine ⟨fun p hp => hkeys p (mem_eraseKey k hp), ?_, rfl⟩
    exact le_trans (length_eraseKey_le k c.memoryCache) hlen
  | clearOp => exact ⟨by simp [applyOp, clear], by simp [applyOp, clear], rfl⟩

/-- Iterated form of `applyOp_inv`. -/
theorem applyOps_inv (ops : List (CacheOp α)) :
    ∀ c : CacheManager α, 1 ≤ c.maxSize →
      (∀ op ∈ ops, ∀ k, opSetKey op = some k → k ≠ "") →
      (∀ p ∈ c.memoryCache, p.1 ≠ "") →
      c.memoryCache.length ≤ c.maxSize →
      (applyOps c ops).memoryCache.length ≤ c.maxSize ∧
        (applyOps c ops).maxSize = c.maxSize := by
  induction ops with
  | nil => intro c _ _ _ hlen; exact ⟨hlen, rfl⟩
  | cons op rest ih =>
    intro c hcap hops hkeys hlen
    have h1 := applyOp_inv c op hcap (hops op (List.mem_cons_self _ _)) hkeys hlen
    have h2 := ih (applyOp c op) (h1.2.2 ▸ hcap)
      (fun o ho => hops o (List.mem_cons_of_mem _ ho)) h1.1 (h1.2.2 ▸ h1.2.1)
    refine ⟨?_, ?_⟩
    · calc (applyOps (applyOp c op) rest).memoryCache.length
          ≤ (applyOp c op).maxSize := h2.1
        _ = c.maxSize := h1.2.2
    · exact h2.2.trans h1.2.2

/-- Deleting a list of keys not containing `k` leaves the entry under `k`
untouched. -/
theorem find?_foldl_delete (k : String) :
    ∀ (ds : List String) (c : CacheManager α), k ∉ ds →
      find? k ((ds.foldl (fun c k => delete k c) c).memoryCache) =
        find? k c.memoryCache := by
  intro ds
  induction ds with
  | nil => intro c _; rfl
  | cons d rest ih =>
    intro c hk
    have hkd : k ≠ d := fun h => hk (h ▸ List.mem_cons_self _ _)
    have hkrest : k ∉ rest := fun h => hk (List.mem_cons_of_mem _ h)
    calc find? k ((List.foldl (fun c k => delete k c) (delete d c) rest).memoryCache)
        = find? k (delete d c).memoryCache := ih (delete d c) hkrest
      _ = find? k c.memoryCache := find?_eraseKey_ne k d hkd c.memoryCache

/-- The value component of `get` depends on the store only through `find?`. -/
theorem get_fst_eq_of_find? {c c' : CacheManager α} (now : Nat) (k : String)
    (h : find? k c.memoryCache = find? k c'.memoryCache) :
    (get now k c).1 = (get now k c').1 := by
  rcases hf : find? k c'.memoryCache with _ | e
  · have hc : find? k c.memoryCache = none := h.trans hf
    simp [get, hc, hf]
  · have hc : find? k c.memoryCache = some e := h.trans hf
    by_cases hex : e.timestamp + e.ttl < now
    · simp [get, hc, hf, hex]
    · simp [get, hc, hf, hex]

end CacheManager

/-! ### Substring lemmas (for the semantic-text theorems) -/

theorem leadChars_append_self : ∀ (l r : List Char), leadChars l (l ++ r) = true := by
  intro l
  induction l with
  | nil => intro r; rfl
  | cons c cs ih => intro r; simp [leadChars, ih]

theorem hasSubChars_of_lead {pat l : List Char} (h : leadChars pat l = true) :
    hasSubChars pat l = true := by
  cases l with
  | nil => simpa [hasSubChars] using h
  | cons c cs => simp [hasSubChars, h]

theorem hasSubChars_append_left {pat ys : List Char} :
    ∀ xs : List Char, hasSubChars pat ys = true → hasSubChars pat (xs ++ ys) = true := by
  intro xs
  induction xs with
  | nil => intro h; simpa using h
  | cons c cs ih => intro h; simp [hasSubChars, ih h]

/-! ### Merge / sort permutation lemmas -/

namespace Navi

theorem insertMerge_perm (x : SearchResultItem) :
    ∀ l : List SearchResultItem, (insertMerge x l).Perm (x :: l) := by
  intro l
  induction l with
  | nil => simp [insertMerge]
  | cons y ys ih =>
    by_cases h : cmpMergeLt x y
    · simp [insertMerge, h]
    · simp only [insertMerge, h, if_false]
      exact (ih.cons y).trans (List.Perm.swap x y ys)

theorem sortMerge_perm :
    ∀ (l acc : List SearchResultItem),
      (l.foldl (fun acc x => insertMerge x acc) acc).Perm (acc ++ l) := by
  intro l
  induction l with
  | nil => intro acc; simp
  | cons x xs ih =>
    intro acc
    have h1 := ih (insertMerge x acc)
    have h2 : (insertMerge x acc ++ xs).Perm ((x :: acc) ++ xs) :=
      (insertMerge_perm x acc).append_right xs
    have h3 : ((x :: acc) ++ xs).Perm (acc ++ x :: xs) := List.perm_middle.symm
    rw [List.foldl_cons]
    exact h1.trans (h2.trans h3)

theorem dedup_foldl_nodup :
    ∀ (l : List SearchResultItem) (acc : List Int × List SearchResultItem),
      (acc.2.map (fun r => r.id)).Nodup → (∀ r ∈ acc.2, r.id ∈ acc.1) →
      ((l.foldl dedupStep acc).2.map (fun r => r.id)).Nodup ∧
        ∀ r ∈ (l.foldl dedupStep acc).2, r.id ∈ (l.foldl dedupStep acc).1 := by
  intro l
  induction l with
  | nil => intro acc h1 h2; exact ⟨h1, h2⟩
  | cons x xs ih =>
    intro acc h1 h2
    by_cases hx : x.id ∈ acc.1
    · rw [List.foldl_cons]
      rw [show dedupStep acc x = acc from by simp [dedupStep, hx]]
      exact ih acc h1 h2
    · rw [List.foldl_cons]
      rw [show dedupStep acc x = (x.id :: acc.1, acc.2 ++ [x]) from by
        simp [dedupStep, hx]]
      apply ih
      · rw [List.map_append, List.nodup_append]
        refine ⟨h1, by simp, ?_⟩
        intro a ha
        simp only [List.map_cons, List.map_nil, List.mem_singleton]
        intro hax
        rcases List.mem_map.mp ha with ⟨r, hr, hrid⟩
        exact hx (hax ▸ hrid ▸ h2 r hr)
      · intro r hr
        rcases List.mem_append.mp hr with h | h
        · exact List.mem_cons_of_mem _ (h2 r h)
        · simp only [List.mem_singleton] at h
          exact h ▸ List.mem_cons_self _ _

theorem dedup_foldl_mem :
    ∀ (l : List SearchResultItem) (acc : List Int × List SearchResultItem)
      (x : SearchResultItem), x ∈ (l.foldl dedupStep acc).2 → x ∈ acc.2 ∨ x ∈ l := by
  intro l
  induction l with
  | nil => intro acc x hx; exact Or.inl hx
  | cons y ys ih =>
    intro acc x hx
    rw [List.foldl_cons] at hx
    rcases ih (dedupStep acc y) x hx with h | h
    · by_cases hy : y.id ∈ acc.1
      · rw [show dedupStep acc y = acc from by simp [dedupStep, hy]] at h
        exact Or.inl h
      · rw [show dedupStep acc y = (y.id :: acc.1, acc.2 ++ [y]) from by
          simp [dedupStep, hy]] at h
        rcases List.mem_append.mp h with h1 | h1
        · exact Or.inl h1
        · simp only [List.mem_singleton] at h1
          exact Or.inr (h1 ▸ List.mem_cons_self _ _)
    · exact Or.inr (List.mem_cons_of_mem _ h)

/-- `recordSearch` always leaves the history within the bound. -/
theorem recordSearch_length_le (query : String) (cnt now : Nat)
    (e : SmartSearchEngine) :
    (recordSearch query cnt now e).searchHistory.length ≤ e.maxHistoryItems := by
  simp only [recordSearch]
  split
  · simp only [List.length_take]
    exact Nat.min_le_left _ _
  · next h =>
    simp only [List.length_cons] at h ⊢
    omega

end Navi

/-! ### Claim theorems -/

/-- C1 (counterexample): with `groupsWithSites -> 42` stored at time 0 with TTL
10 and both the read and the failing fetch happening at time 100 (entry
expired), the read-through `getGroupsWithSites` propagates the fetch error
instead of returning the expired cached value 42, contradicting the claim. -/
theorem claim_C1_counterexample :
    (NavigationCacheManager.getGroupsWithSites 100 100
      (Except.error "fetch failed") false navExpired).1
      = Except.error "fetch failed" := rfl

/-- C1 (amended): on fetch failure the read-through body returns the cached
value only when the entry under the key is still fresh at the fallback read
(which can happen when `forceRefresh` skipped the initial cache read); when
every entry under the key is expired at the initial read time — or no entry
exists — the fetch error is propagated. The expired value is never served,
because the fallback uses the TTL-checking `get`. -/
theorem claim_C1_theorem {α : Type} :
    (∀ (n : NavigationCacheManager α) (key : String) (t1 t2 : Nat) (err : String)
        (entry : CacheEntry α),
      CacheManager.find? key n.cache.memoryCache = some entry →
      ¬ (entry.timestamp + entry.ttl < t2) →
      (NavigationCacheManager.getWithCache key t1 t2 (Except.error err) true n).1
        = Except.ok entry.data) ∧
    (∀ (n : NavigationCacheManager α) (key : String) (t1 t2 : Nat) (err : String)
        (fr : Bool),
      t1 ≤ t2 →
      (∀ entry, CacheManager.find? key n.cache.memoryCache = some entry →
        entry.timestamp + entry.ttl < t1) →
      (NavigationCacheManager.getWithCache key t1 t2 (Except.error err) fr n).1
        = Except.error err) := by
  constructor
  · intro n key t1 t2 err entry hfind hfresh
    simp [NavigationCacheManager.getWithCache, NavigationCacheManager.fetchPhase,
      CacheManager.get, hfind, hfresh]
  · intro n key t1 t2 err fr hle hexp
    cases fr with
    | true =>
      rcases hf : CacheManager.find? key n.cache.memoryCache with _ | entry
      · simp [NavigationCacheManager.getWithCache, NavigationCacheManager.fetchPhase,
          CacheManager.get, hf]
      · have hexp2 : entry.timestamp + entry.ttl < t2 :=
          lt_of_lt_of_le (hexp entry hf) hle
        simp [NavigationCacheManager.getWithCache, NavigationCacheManager.fetchPhase,
          CacheManager.get, hf, hexp2]
    | false =>
      rcases hf : CacheManager.find? key n.cache.memoryCache with _ | entry
      · simp [NavigationCacheManager.getWithCache, NavigationCacheManager.fetchPhase,
          CacheManager.get, hf]
      · have hexp1 := hexp entry hf
        simp [NavigationCacheManager.getWithCache, NavigationCacheManager.fetchPhase,
          CacheManager.get, hf, hexp1, CacheManager.find?_eraseKey_self]

/-- C1 (witness): the amended theorem applied to the concrete coordinator
`navExpired`: a fresh hit at time 5 under `forceRefresh` is served from cache
despite the failing fetch, and at time 100 (expired) the error propagates. -/
theorem claim_C1_witness :
    (NavigationCacheManager.getWithCache "groupsWithSites" 5 5
      (Except.error "fetch failed") true navExpired).1 = Except.ok 42 ∧
    (NavigationCacheManager.getWithCache "groupsWithSites" 100 100
      (Except.error "boom") false navExpired).1 = Except.error "boom" := by
  constructor
  · exact claim_C1_theorem.1 navExpired "groupsWithSites" 5 5 "fetch failed"
      ⟨42, 0, 10⟩ rfl (by decide)
  · refine claim_C1_theorem.2 navExpired "groupsWithSites" 100 100 "boom" false
      (le_refl 100) ?_
    intro entry h
    have he : entry = ⟨42, 0, 10⟩ := by
      simpa [navExpired, CacheManager.find?] using h.symm
    rw [he]
    decide

/-- C5 (counterexample): the capacity bound fails for the empty-string key:
with capacity 2, setting keys `""`, `"a"`, `"b"` (all fresh) leaves 3 entries,
because the eviction guard `if (firstKey)` treats the empty first key as
falsy and skips the eviction. -/
theorem claim_C5_counterexample :
    (applyOps (⟨[], 2, 1000⟩ : CacheManager Nat)
      [.setOp 0 "" 9 100, .setOp 0 "a" 1 100, .setOp 0 "b" 2 100]).memoryCache.length
      = 3 := rfl

/-- C5 (amended): provided the capacity is at least 1 and every key written is
non-empty, any sequence of set/delete/clear operations leaves at most
`capacity` entries; and the FIFO scenario holds: capacity 2, inserting
`a`, `b`, `c` in order (all unexpired) leaves exactly `b`, `c`, the
first-inserted key being the one evicted. -/
theorem claim_C5_theorem :
    (∀ (ops : List (CacheOp Nat)) (cap dttl : Nat), 1 ≤ cap →
      (∀ op ∈ ops, ∀ k, opSetKey op = some k → k ≠ "") →
      (applyOps ⟨[], cap, dttl⟩ ops).memoryCache.length ≤ cap) ∧
    (applyOps (⟨[], 2, 1000⟩ : CacheManager Nat)
      [.setOp 0 "a" 1 100, .setOp 1 "b" 2 100, .setOp 2 "c" 3 100]).memoryCache.map
        Prod.fst = ["b", "c"] := by
  constructor
  · intro ops cap dttl hcap hops
    have h := CacheManager.applyOps_inv ops ⟨[], cap, dttl⟩ hcap hops
      (by intro p hp; simp at hp) (by simp)
    exact h.1
  · rfl

/-- C5 (witness): the amended capacity bound applied to a concrete sequence. -/
theorem claim_C5_witness :
    (applyOps (⟨[], 2, 5⟩ : CacheManager Nat)
      [.setOp 0 "x" 1 9, .setOp 0 "y" 2 9, .setOp 0 "z" 3 9]).memoryCache.length
      ≤ 2 := by
  refine claim_C5_theorem.1 _ 2 5 (by decide) ?_
  intro op hop k hk
  simp only [List.mem_cons, List.not_mem_nil, or_false] at hop
  rcases hop with h | h | h
  all_goals
    subst h
    simp only [opSetKey, Option.some.injEq] at hk
    rw [← hk]
    decide

/-- C6 (confirmed): for ttl > 0, `set(k, v, ttl)` followed immediately by
`get(k)` returns `v`; once `now2 - now > ttl`, `get(k)` reports absent and
deletes the stale entry from the store as a side effect. -/
theorem claim_C6_theorem {α : Type} (c : CacheManager α) (k : String) (v : α)
    (ttl now now2 : Nat) (_httl : 0 < ttl) :
    (CacheManager.get now k (CacheManager.set now k v ttl c)).1 = some v ∧
    (now + ttl < now2 →
      (CacheManager.get now2 k (CacheManager.set now k v ttl c)).1 = none ∧
      CacheManager.find? k
        ((CacheManager.get now2 k (CacheManager.set now k v ttl c)).2.memoryCache)
        = none) := by
  have hf := CacheManager.find?_set_self now k v ttl c
  have hn : ¬ (now + ttl < now) := by omega
  refine ⟨by simp [CacheManager.get, hf, hn], fun h2 => ⟨?_, ?_⟩⟩
  · simp [CacheManager.get, hf, h2]
  · simp [CacheManager.get, hf, h2, CacheManager.find?_eraseKey_self]

/-- C6 (witness): the freshness theorem at `k`, `v = 7`, `ttl = 5`, stored at
time 0, read back at times 0 and 6. -/
theorem claim_C6_witness :
    (CacheManager.get 0 "k" (CacheManager.set 0 "k" (7 : Nat) 5 ⟨[], 10, 10⟩)).1
      = some 7 ∧
    (CacheManager.get 6 "k" (CacheManager.set 0 "k" (7 : Nat) 5 ⟨[], 10, 10⟩)).1
      = none := by
  have h := claim_C6_theorem (⟨[], 10, 10⟩ : CacheManager Nat) "k" 7 5 0 6 (by decide)
  exact ⟨h.1, (h.2 (by decide)).1⟩

/-! ### Further helper lemmas (string decomposition, invalidate normal form) -/

theorem string_data_append (s t : String) : (s ++ t).data = s.data ++ t.data := rfl

theorem hasSubChars_cons {pat l : List Char} (c : Char)
    (h : hasSubChars pat l = true) : hasSubChars pat (c :: l) = true := by
  simp [hasSubChars, h]

theorem leadChars_self (l : List Char) : leadChars l l = true := by
  simpa using leadChars_append_self l []

namespace NavigationCacheManager

/-- For a non-`all` invalidation and a key whose text does not match the
type's substring, the entry lookup after `invalidate` coincides with the
lookup in the lazily-swept store. -/
theorem invalidate_find? {α : Type} (ty : InvalidateType) (hty : ty ≠ .all)
    (now : Nat) (k : String) (n : NavigationCacheManager α)
    (hmatch : invalidateKeyMatches ty k = false) :
    CacheManager.find? k ((invalidate ty now n).cache.memoryCache)
      = CacheManager.find? k (CacheManager.sweep now n.cache.memoryCache) := by
  have hnot : k ∉ (CacheManager.keysOp now n.cache).1.filter
      (invalidateKeyMatches ty) := by
    intro hk
    have h2 := (List.mem_filter.mp hk).2
    rw [hmatch] at h2
    cases h2
  cases ty with
  | all => exact absurd rfl hty
  | groups => exact CacheManager.find?_foldl_delete k _ _ hnot
  | sites => exact CacheManager.find?_foldl_delete k _ _ hnot
  | configs => exact CacheManager.find?_foldl_delete k _ _ hnot

end NavigationCacheManager

/-- C2 (counterexample): a group and a site that share numeric id 1 and both
match the query `"abc"` produce a single merged result (the site, seen first
in the basic pass), not two: deduplication keys on the id alone, not on the
(kind, id) pair. -/
theorem claim_C2_counterexample :
    ((Navi.search "abc" [groupId1] [siteId1] 0 engine100).1.map
      (fun r => (r.type, r.id))) = [(Navi.RType.site, 1)] := rfl

/-- C2 (amended): `mergeAndDeduplicate` deduplicates by the numeric id alone:
in the merged output each id occurs exactly once (so a group and a site that
share an id collapse into the first-seen record). -/
theorem claim_C2_theorem (basic smart semantic : List Navi.SearchResultItem) :
    ((Navi.mergeAndDeduplicate basic smart semantic).map (fun r => r.id)).Nodup := by
  unfold Navi.mergeAndDeduplicate
  dsimp only
  have h1 := Navi.dedup_foldl_nodup basic ([], [])
    (by simp) (by intro r hr; simp at hr)
  have h2 := Navi.dedup_foldl_nodup smart _ h1.1 h1.2
  have h3 := Navi.dedup_foldl_nodup semantic _ h2.1 h2.2
  have hperm : ((semantic.foldl Navi.dedupStep
      (smart.foldl Navi.dedupStep
        (basic.foldl Navi.dedupStep ([], [])))).2.foldl
          (fun acc x => Navi.insertMerge x acc) []).Perm
      (semantic.foldl Navi.dedupStep
        (smart.foldl Navi.dedupStep (basic.foldl Navi.dedupStep ([], [])))).2 := by
    simpa using Navi.sortMerge_perm
      (semantic.foldl Navi.dedupStep
        (smart.foldl Navi.dedupStep (basic.foldl Navi.dedupStep ([], [])))).2 []
  exact ((hperm.map (fun r => r.id)).nodup_iff).mpr h3.1

/-- C3 (counterexample): for the site `siteId1` (name "abc") and the query
"abc", pass 1 matches it and pass 3 assigns it semanticScore 15, yet the
single merged result carries no semanticScore at all (`none`), contradicting
the claim that the pass-3 score is preserved on the merged entry. -/
theorem claim_C3_counterexample :
    ((Navi.search "abc" [] [siteId1] 0 engine100).1.map
      (fun r => r.semanticScore)) = [none] ∧
    ((Navi.performSemanticSearch "abc" [] [siteId1]).map
      (fun r => r.semanticScore)) = [some 15] := ⟨rfl, rfl⟩

/-- C3 (amended): merging is pure selection — every merged entry is one of the
three passes' entries unchanged, so a record first seen in pass 1 keeps its
absent semanticScore even when pass 3 scored it; the relevance sort then reads
that absent score as 0. -/
theorem claim_C3_theorem (basic smart semantic : List Navi.SearchResultItem)
    (x : Navi.SearchResultItem)
    (hx : x ∈ Navi.mergeAndDeduplicate basic smart semantic) :
    x ∈ basic ++ smart ++ semantic := by
  unfold Navi.mergeAndDeduplicate at hx
  dsimp only at hx
  have hperm := Navi.sortMerge_perm
    (semantic.foldl Navi.dedupStep
      (smart.foldl Navi.dedupStep (basic.foldl Navi.dedupStep ([], [])))).2 []
  have hx2 : x ∈ (semantic.foldl Navi.dedupStep
      (smart.foldl Navi.dedupStep (basic.foldl Navi.dedupStep ([], [])))).2 := by
    have := hperm.mem_iff.mp hx
    simpa using this
  rcases Navi.dedup_foldl_mem semantic _ x hx2 with h | h
  · rcases Navi.dedup_foldl_mem smart _ x h with h2 | h2
    · rcases Navi.dedup_foldl_mem basic _ x h2 with h3 | h3
      · simp at h3
      · exact List.mem_append.mpr (Or.inl (List.mem_append.mpr (Or.inl h3)))
    · exact List.mem_append.mpr (Or.inl (List.mem_append.mpr (Or.inr h2)))
  · exact List.mem_append.mpr (Or.inr h)

/-- C3 (witness): the pass-through property applied to a concrete singleton
basic pass. -/
theorem claim_C3_witness :
    Navi.siteToResult siteId1 ["name"] none ∈
      ([Navi.siteToResult siteId1 ["name"] none] ++ [] ++ []) :=
  claim_C3_theorem [Navi.siteToResult siteId1 ["name"] none] [] []
    (Navi.siteToResult siteId1 ["name"] none) (by decide)

/-- C4 (counterexample): for the query "abc" with the sites supplied in the
order [abcdef, abc], the search returns the exact-match site strictly lower
(second) — the two results tie on every ranking key and the stable sort keeps
input order, contradicting "no lower whatever their order in the input
array". -/
theorem claim_C4_counterexample :
    ((Navi.search "abc" [] [siteAbcdef, siteAbc] 0 engine100).1.map
      (fun r => r.name)) = ["abcdef", "abc"] := rfl

/-- C4 (amended): the exact-match site ranks no lower than the prefix-superset
site when it appears no later in the input array: with sites supplied as
[abc, abcdef], the result order is [abc, abcdef] (the two results tie on
semanticScore, kind and matched-field count, and the stable sort preserves
input order). -/
theorem claim_C4_theorem :
    ((Navi.search "abc" [] [siteAbc, siteAbcdef] 0 engine100).1.map
      (fun r => r.name)) = ["abc", "abcdef"] := rfl

/-- C7 (confirmed): every search that records a history entry (every search
with a non-whitespace query) leaves the history within `maxHistoryItems`, and
with capacity 2 the queries "a", "b", "c" recorded in order leave exactly the
entries for "c" and "b" (newest first) — the oldest entry "a" is dropped. -/
theorem claim_C7_theorem :
    (∀ (q : String) (gs : List Navi.Group) (ss : List Navi.Site) (now : Nat)
        (e : Navi.SmartSearchEngine), ¬ (jsTrim q = "") →
      (Navi.search q gs ss now e).2.searchHistory.length ≤ e.maxHistoryItems) ∧
    ((Navi.search "c" [] [] 2
        (Navi.search "b" [] [] 1
          (Navi.search "a" [] [] 0 engine2).2).2).2.searchHistory.map
      (fun h => h.query)) = ["c", "b"] := by
  constructor
  · intro q gs ss now e hq
    simp only [Navi.search, hq, if_false]
    exact Navi.recordSearch_length_le q _ now e
  · rfl

/-- C7 (witness): the history bound applied to a concrete recording search. -/
theorem claim_C7_witness :
    (Navi.search "a" [] [] 0 engine2).2.searchHistory.length ≤ 2 :=
  claim_C7_theorem.1 "a" [] [] 0 engine2 (by decide)

/-- C8 (counterexample): a null groups collection with a non-empty query is
not treated as an empty collection — iterating it throws, so the call fails
instead of returning a result list. -/
theorem claim_C8_counterexample :
    Navi.searchNullable "a" none (some []) 0 engine100
      = Except.error "TypeError: null collection is not iterable" := rfl

/-- C8 (amended): `search` never raises when the collections it iterates are
actual (possibly empty) arrays — it returns a result list for every query —
and a null groups collection is harmless only on the empty-query path, which
never touches it; a null collection that is iterated raises a TypeError
rather than being treated as empty. -/
theorem claim_C8_theorem :
    (∀ (q : String) (gs : List Navi.Group) (ss : List Navi.Site) (now : Nat)
        (e : Navi.SmartSearchEngine),
      Navi.searchNullable q (some gs) (some ss) now e
        = Except.ok (Navi.search q gs ss now e)) ∧
    (∀ (gopt : Option (List Navi.Group)) (ss : List Navi.Site) (now : Nat)
        (e : Navi.SmartSearchEngine),
      Navi.searchNullable "" gopt (some ss) now e
        = Except.ok (Navi.getPopularRecommendations [] ss, e)) := by
  constructor
  · intro q gs ss now e
    rfl
  · intro gopt ss now e
    cases gopt <;> rfl

/-- C9 (confirmed): whenever a site's description or notes is absent, the
semantic pass's combined text contains the literal token "undefined" (bare
template interpolation); consequently the query "undefined" against a site
with name "abc" and no url/description/notes returns that site (id 1) even
though its real searchable text (the scoring text built with `|| ''`) does
not contain "undefined" at all. -/
theorem claim_C9_theorem :
    (∀ s : Navi.Site, s.description = none ∨ s.notes = none →
      strIncludes (Navi.semanticSiteText s) "undefined" = true) ∧
    ((Navi.search "undefined" [] [siteId1] 0 engine100).1.map (fun r => r.id))
      = [1] ∧
    strIncludes (Navi.getItemTextForScoring (.ofSite siteId1)) "undefined"
      = false := by
  refine ⟨?_, rfl, rfl⟩
  intro s hs
  unfold strIncludes
  rcases hs with hd | hn
  · have hdec : (Navi.semanticSiteText s).data =
        s.name.data.map Char.toLower ++ [' '] ++ "undefined".data ++ [' '] ++
          (Navi.optInterp s.notes).data.map Char.toLower ++ [' '] ++
          (Navi.optInterp s.url).data.map Char.toLower := by
      unfold Navi.semanticSiteText jsToLower
      rw [hd]
      simp only [Navi.optInterp, string_data_append, List.map_append]
      rfl
    rw [hdec]
    simp only [List.append_assoc]
    exact hasSubChars_append_left (s.name.data.map Char.toLower)
      (hasSubChars_cons ' '
        (hasSubChars_of_lead (leadChars_append_self "undefined".data
          ([' '] ++ ((Navi.optInterp s.notes).data.map Char.toLower ++
            ([' '] ++ (Navi.optInterp s.url).data.map Char.toLower))))))
  · have hdec : (Navi.semanticSiteText s).data =
        s.name.data.map Char.toLower ++ [' '] ++
          (Navi.optInterp s.description).data.map Char.toLower ++ [' '] ++
          "undefined".data ++ [' '] ++
          (Navi.optInterp s.url).data.map Char.toLower := by
      unfold Navi.semanticSiteText jsToLower
      rw [hn]
      simp only [Navi.optInterp, string_data_append, List.map_append]
      rfl
    rw [hdec]
    simp only [List.append_assoc]
    exact hasSubChars_append_left (s.name.data.map Char.toLower)
      (hasSubChars_cons ' '
        (hasSubChars_append_left ((Navi.optInterp s.description).data.map Char.toLower)
          (hasSubChars_cons ' '
            (hasSubChars_of_lead (leadChars_append_self "undefined".data
              ([' '] ++ (Navi.optInterp s.url).data.map Char.toLower))))))

/-- C9 (witness): the "undefined"-token property applied to the concrete site
`siteId1`, whose description is absent. -/
theorem claim_C9_witness :
    strIncludes (Navi.semanticSiteText siteId1) "undefined" = true :=
  claim_C9_theorem.1 siteId1 (Or.inl rfl)

/-- C10 (confirmed): `invalidate` selects cached keys by case-sensitive
substring. On `navKeys` (all entries fresh): `invalidate('groups')` deletes
both `groupsWithSites` and the per-group key `sites_group_5` (both contain
"group"), leaving `all_sites` and `configs`; `invalidate('sites')` deletes
`sites_group_5` and `all_sites` but leaves `groupsWithSites` (its capital S
defeats the lowercase "site" test) and `configs`. And in general, for any
non-`all` invalidation, a key whose text does not contain the selected
substring observes exactly the same `get` result before and after the
invalidation (the lazy-expiry sweep inside `keys()` may drop an expired
non-matching entry, but such an entry already reads as absent). -/
theorem claim_C10_theorem :
    ((NavigationCacheManager.invalidate .groups 10 navKeys).cache.memoryCache.map
      Prod.fst = ["all_sites", "configs"]) ∧
    ((NavigationCacheManager.invalidate .sites 10 navKeys).cache.memoryCache.map
      Prod.fst = ["groupsWithSites", "configs"]) ∧
    (∀ {α : Type} (n : NavigationCacheManager α)
        (ty : NavigationCacheManager.InvalidateType) (now : Nat) (k : String),
      ty ≠ .all →
      NavigationCacheManager.invalidateKeyMatches ty k = false →
      (n.cache.memoryCache.map Prod.fst).Nodup →
      (CacheManager.get now k (NavigationCacheManager.invalidate ty now n).cache).1
        = (CacheManager.get now k n.cache).1) := by
  refine ⟨rfl, rfl, ?_⟩
  intro α n ty now k hty hmatch hnd
  have hinv := NavigationCacheManager.invalidate_find? ty hty now k n hmatch
  have hsw := CacheManager.find?_sweep k now n.cache.memoryCache hnd
  rcases hf : CacheManager.find? k n.cache.memoryCache with _ | e
  · rw [hf] at hsw
    have h1 : CacheManager.find? k
        ((NavigationCacheManager.invalidate ty now n).cache.memoryCache) = none :=
      hinv.trans hsw
    simp [CacheManager.get, h1, hf]
  · rw [hf] at hsw
    by_cases hex : e.timestamp + e.ttl < now
    · have h1 : CacheManager.find? k
          ((NavigationCacheManager.invalidate ty now n).cache.memoryCache) = none := by
        rw [hinv, hsw]
        simp [hex]
      simp [CacheManager.get, h1, hf, hex]
    · have h1 : CacheManager.find? k
          ((NavigationCacheManager.invalidate ty now n).cache.memoryCache) = some e := by
        rw [hinv, hsw]
        simp [hex]
      simp [CacheManager.get, h1, hf, hex]

/-- C10 (witness): the frame property applied concretely: the key `configs`
does not contain "group", so `invalidate('groups')` does not change what
`get('configs')` returns on `navKeys`. -/
theorem claim_C10_witness :
    (CacheManager.get 10 "configs"
      (NavigationCacheManager.invalidate .groups 10 navKeys).cache).1
      = (CacheManager.get 10 "configs" navKeys.cache).1 :=
  claim_C10_theorem.2.2 navKeys .groups 10 "configs" (by decide) (by decide)
    (by decide)
